import Mathlib

/-!
Verification of the Categorized-Quiz trivia client (src/script.js).

The script is a browser quiz: it fetches categories and questions from the
Open Trivia DB, shows one question at a time, scores answers by elapsed
time, and keeps a persisted high score.  We embed the session state and the
pure logic of each handler as Lean definitions and prove the spec claims
about them.  DOM rendering is modelled by its observable content (the list
of option entries, the rendered answer strings, the displayed question);
`localStorage` is modelled by the `highScore` field, which the script keeps
in sync with the stored value; `Math.random()` draws are modelled by an
explicit choice function fed to the shuffle.
-/

namespace CategorizedQuiz

/-! ### Scorer (script.js lines 20-21, 132-133) -/

/-- `const baseScorePerQuestion = 1000` (script.js line 20). -/
def baseScorePerQuestion : ℤ := 1000

/-- `const penaltyPerSecond = 10` (script.js line 21). -/
def penaltyPerSecond : ℤ := 10

/-- Points for one question, script.js line 133:
`Math.max(baseScorePerQuestion - Math.floor(timeTaken) * penaltyPerSecond, 0)`.
`timeTaken` is `(Date.now() - questionStartTime) / 1000`, a nonnegative real
with millisecond granularity; we model it as a rational. -/
def scoreForQuestion (timeTaken : ℚ) : ℤ :=
  max (baseScorePerQuestion - ⌊timeTaken⌋ * penaltyPerSecond) 0

/-! ### HTML entity decoding (script.js lines 227-231)

`decodeHTML` in the script sets `textarea.innerHTML` and reads back
`textarea.value`, delegating entity decoding to the browser HTML parser,
which is not part of this repository.  Modelled from the spec: all API text
is HTML-entity encoded and must be decoded before display and before any
equality comparison; named entities and decimal numeric references such as
`&#039;` decode to the corresponding character.  We model the common named
entities and decimal numeric references; an ampersand that does not start a
well-formed reference is left as-is, as the lenient parser does. -/

/-- If `p` is literally the front of `l`, return the remainder. -/
def dropExact : List Char → List Char → Option (List Char)
  | [], l => some l
  | _ :: _, [] => none
  | p :: ps, c :: cs => if p = c then dropExact ps cs else none

/-- Named character references recognised by the model. -/
def namedEntities : List (List Char × Char) :=
  [("amp".toList, '&'), ("lt".toList, '<'), ("gt".toList, '>'),
   ("quot".toList, Char.ofNat 34), ("apos".toList, Char.ofNat 39),
   ("nbsp".toList, Char.ofNat 160)]

/-- Try each named entity `name;` against the front of `l`. -/
def tryNamed : List (List Char × Char) → List Char → Option (Char × List Char)
  | [], _ => none
  | (name, ch) :: rest, l =>
    match dropExact (name ++ [Char.ofNat 59]) l with
    | some l2 => some (ch, l2)
    | none => tryNamed rest l

/-- Value of a list of decimal digit characters. -/
def digitsToNat (ds : List Char) : Nat :=
  ds.foldl (fun acc c => 10 * acc + (c.toNat - 48)) 0

/-- Parse one character reference right after a `&`:
either a named entity or a decimal reference `#digits;`. -/
def parseEntity (l : List Char) : Option (Char × List Char) :=
  match tryNamed namedEntities l with
  | some r => some r
  | none =>
    match l with
    | c :: rest =>
      if c = '#' then
        let ds := rest.takeWhile (fun d => 48 ≤ d.toNat ∧ d.toNat ≤ 57)
        match rest.dropWhile (fun d => 48 ≤ d.toNat ∧ d.toNat ≤ 57) with
        | d :: rest2 =>
          if d = Char.ofNat 59 ∧ ds ≠ [] then some (Char.ofNat (digitsToNat ds), rest2)
          else none
        | [] => none
      else none
    | [] => none

/-- Decode a character list; the fuel argument is an upper bound on the
number of produced characters (each step consumes at least one input
character, so `l.length` fuel always suffices). -/
def decodeAux : Nat → List Char → List Char
  | 0, l => l
  | _ + 1, [] => []
  | fuel + 1, c :: rest =>
    if c = '&' then
      match parseEntity rest with
      | some (ch, rest2) => ch :: decodeAux fuel rest2
      | none => c :: decodeAux fuel rest
    else c :: decodeAux fuel rest

/-- Model of `decodeHTML` (script.js lines 227-231). -/
def decodeHTML (s : String) : String :=
  ⟨decodeAux s.length s.toList⟩

/-- A string is plain when it contains no ampersand, hence no character
reference at all. -/
def isPlain (s : String) : Bool :=
  s.toList.all (fun c => ¬ c = '&')

/-- The correctness comparison of script.js line 143:
`decodeHTML(selected) === decodeHTML(correctAnswer)`. -/
def isCorrectSelection (selected correctAnswer : String) : Bool :=
  decodeHTML selected == decodeHTML correctAnswer

/-! ### DOM text round-trip (script.js lines 117, 139)

`displayAnswers` sets `button.innerHTML = decodeHTML(answer)`; reading
`button.innerHTML` back returns the standard HTML fragment serialization of
the button contents, which escapes the characters `&`, `<` and `>` occurring
in text.  This getter/setter pair belongs to the browser, not to the
repository; we model the round-trip for tag-free text, which is what quiz
answers are. -/

/-- HTML fragment serialization of one text character. -/
def escapeChar (c : Char) : List Char :=
  if c = '&' then "&amp;".toList
  else if c = '<' then "&lt;".toList
  else if c = '>' then "&gt;".toList
  else [c]

/-- HTML fragment serialization of a text node. -/
def serializeHTML (s : String) : String :=
  ⟨s.toList.flatMap escapeChar⟩

/-- What `button.innerHTML` reads back after script.js line 117 assigned
`decodeHTML(answer)` to it. -/
def buttonInnerHTML (answer : String) : String :=
  serializeHTML (decodeHTML answer)

/-- The `correctButton` lookup of script.js lines 136-141: the buttons are
scanned for one whose `innerHTML` is string-equal to
`decodeHTML(correctAnswer)`; the scan only happens for answers whose decoded
form matches the decoded correct answer, and `correctButton` stays
`undefined` (here `none`) when the inner `find` misses. -/
def findCorrectButton (answers : List String) (correctAnswer : String) : Option String :=
  if answers.any (fun a => decodeHTML a = decodeHTML correctAnswer) then
    (answers.map buttonInnerHTML).find? (fun b => b = decodeHTML correctAnswer)
  else
    none

/-! ### Data model -/

/-- One record of the question endpoint response (spec section 6):
`question`, `correct_answer`, `incorrect_answers`, all HTML-entity encoded. -/
structure Question where
  question : String
  correct_answer : String
  incorrect_answers : List String
deriving Repr, DecidableEq, Inhabited

/-- One entry of the category endpoint response. -/
structure Category where
  id : Nat
  name : String
deriving Repr, DecidableEq

/-- One `<option>` element of the category selector: script.js lines 38-40
set `option.value = category.id` and `option.textContent = category.name`. -/
structure SelectOption where
  value : Nat
  label : String
deriving Repr, DecidableEq

/-- The mutable session state of script.js lines 15-19: `currentQuestions`,
`score`, `questionIndex`, `highScore` (kept in sync with the
`HighScoreTrivia` localStorage entry).  `finished` records that
`updateHighScore(); showResults()` ran, i.e. the controller is in the
Finished state showing the results view. -/
structure QuizState where
  currentQuestions : List Question
  score : ℤ
  questionIndex : Nat
  highScore : ℤ
  finished : Bool
deriving Repr, DecidableEq

/-! ### Session controller (script.js lines 67-99, 131-159, 199-205) -/

/-- `updateHighScore` (script.js lines 199-205): writes the high score
variable and the localStorage entry only when `score > highScore`. -/
def updateHighScore (st : QuizState) : QuizState :=
  if st.score > st.highScore then { st with highScore := st.score } else st

/-- `displayQuestion` (script.js lines 88-99): with a question left, render
it (state unchanged; the rendered content is `displayedQuestion` below);
otherwise `updateHighScore(); showResults()`. -/
def displayQuestion (st : QuizState) : QuizState :=
  if st.questionIndex < st.currentQuestions.length then st
  else { updateHighScore st with finished := true }

/-- The question the quiz view currently renders: `currentQuestions[questionIndex]`
when the index is in range, nothing when the results view is shown. -/
def displayedQuestion (st : QuizState) : Option Question :=
  st.currentQuestions.get? st.questionIndex

/-- One answer submission, `selectAnswer` plus its 3000ms timeout callback
(script.js lines 131-159): compute the time-decayed points, add them to the
score exactly when the decoded selection equals the decoded correct answer
of the current question, then advance `questionIndex` and re-render. -/
def selectAnswer (st : QuizState) (selected : String) (timeTaken : ℚ) : QuizState :=
  let scoreForThisQuestion := scoreForQuestion timeTaken
  let correctAnswer := (st.currentQuestions.getD st.questionIndex default).correct_answer
  let st1 :=
    if decodeHTML selected = decodeHTML correctAnswer then
      { st with score := st.score + scoreForThisQuestion }
    else st
  displayQuestion { st1 with questionIndex := st1.questionIndex + 1 }

/-- A sequence of answer submissions, each `(selected, timeTaken)`. -/
def runSession : QuizState → List (String × ℚ) → QuizState
  | st, [] => st
  | st, (sel, t) :: rest => runSession (selectAnswer st sel t) rest

/-- `fetchQuestions` resolution (script.js lines 73-78): on success install
`data.results`, reset index and score and render; on failure `alert` the
error and touch nothing.  The second component is the alert message. -/
def fetchQuestions (st : QuizState) (response : Except String (List Question)) :
    QuizState × Option String :=
  match response with
  | Except.ok data =>
    (displayQuestion { st with currentQuestions := data, questionIndex := 0, score := 0 }, none)
  | Except.error e => (st, some ("Error:" ++ e))

/-- Starting a session on question list `qs` (`startGame` plus a successful
`fetchQuestions`, script.js lines 50-57 and 73-78).  Showing the quiz panel
leaves the Finished results view, hence `finished := false`. -/
def startSession (st : QuizState) (qs : List Question) : QuizState :=
  displayQuestion
    { st with currentQuestions := qs, questionIndex := 0, score := 0, finished := false }

/-! ### Category loader (script.js lines 35-44) -/

/-- `fetchCategories` resolution: for each category in API order, append an
option with `value = id`, `label = name` to the selector.  The selector is
never cleared: `appendChild` adds after whatever is already there. -/
def fetchCategories (selector : List SelectOption) (cats : List Category) :
    List SelectOption :=
  selector ++ cats.map (fun c => { value := c.id, label := c.name })

/-! ### Shuffle and answer rendering (script.js lines 110-122, 220-225) -/

/-- Swap the entries at positions `i` and `j`
(`[array[i], array[j]] = [array[j], array[i]]`, script.js line 223). -/
def swapIdx (l : List α) (i j : Nat) : List α :=
  match l.get? i, l.get? j with
  | some x, some y => (l.set i y).set j x
  | _, _ => l

/-- The Fisher-Yates loop of `shuffleArray` (script.js lines 220-225),
counting `i` down from `array.length - 1` to `1`; `rand i` models the
`Math.random()` draw at step `i`, and `% (i + 1)` is the range of
`Math.floor(Math.random() * (i + 1))`. -/
def shuffleAux (rand : Nat → Nat) : List α → Nat → List α
  | l, 0 => l
  | l, i + 1 => shuffleAux rand (swapIdx l (i + 1) (rand (i + 1) % (i + 2))) i

/-- `shuffleArray` (script.js lines 220-225). -/
def shuffleArray (l : List α) (rand : Nat → Nat) : List α :=
  shuffleAux rand l (l.length - 1)

/-- The answer strings `displayAnswers` renders for a question (script.js
lines 110-122): `[...question.incorrect_answers, question.correct_answer]`,
shuffled, each button showing the decoded answer. -/
def displayAnswers (q : Question) (rand : Nat → Nat) : List String :=
  (shuffleArray (q.incorrect_answers ++ [q.correct_answer]) rand).map decodeHTML

/-! ### Specification-side definitions -/

/-- Spec-side total score of a session (spec section 8): the sum over the
questions, in order, of the awarded points of exactly those submissions
whose decoded selection equals the decoded correct answer; incorrect
submissions contribute 0. -/
def answeredScore (qs : List Question) (subs : List (String × ℚ)) : ℤ :=
  ((subs.zip qs).map (fun p =>
    if decodeHTML p.1.1 = decodeHTML p.2.correct_answer then scoreForQuestion p.1.2
    else 0)).sum

/-! ### Basic lemmas about the handlers -/

@[simp] lemma updateHighScore_currentQuestions (st : QuizState) :
    (updateHighScore st).currentQuestions = st.currentQuestions := by
  unfold updateHighScore; split <;> rfl

@[simp] lemma updateHighScore_questionIndex (st : QuizState) :
    (updateHighScore st).questionIndex = st.questionIndex := by
  unfold updateHighScore; split <;> rfl

@[simp] lemma updateHighScore_score (st : QuizState) :
    (updateHighScore st).score = st.score := by
  unfold updateHighScore; split <;> rfl

@[simp] lemma updateHighScore_finished (st : QuizState) :
    (updateHighScore st).finished = st.finished := by
  unfold updateHighScore; split <;> rfl

@[simp] lemma displayQuestion_currentQuestions (st : QuizState) :
    (displayQuestion st).currentQuestions = st.currentQuestions := by
  unfold displayQuestion; split
  · rfl
  · simp

@[simp] lemma displayQuestion_questionIndex (st : QuizState) :
    (displayQuestion st).questionIndex = st.questionIndex := by
  unfold displayQuestion; split
  · rfl
  · simp

@[simp] lemma displayQuestion_score (st : QuizState) :
    (displayQuestion st).score = st.score := by
  unfold displayQuestion; split
  · rfl
  · simp

lemma displayQuestion_finished_of_lt (st : QuizState)
    (h : st.questionIndex < st.currentQuestions.length) :
    (displayQuestion st).finished = st.finished := by
  unfold displayQuestion; rw [if_pos h]

lemma displayQuestion_finished_of_ge (st : QuizState)
    (h : ¬ st.questionIndex < st.currentQuestions.length) :
    (displayQuestion st).finished = true := by
  unfold displayQuestion; rw [if_neg h]

lemma displayQuestion_highScore_of_ge (st : QuizState)
    (h : ¬ st.questionIndex < st.currentQuestions.length) :
    (displayQuestion st).highScore = (updateHighScore st).highScore := by
  unfold displayQuestion; rw [if_neg h]

lemma selectAnswer_currentQuestions (st : QuizState) (sel : String) (t : ℚ) :
    (selectAnswer st sel t).currentQuestions = st.currentQuestions := by
  unfold selectAnswer; dsimp only; split <;> simp

lemma selectAnswer_questionIndex (st : QuizState) (sel : String) (t : ℚ) :
    (selectAnswer st sel t).questionIndex = st.questionIndex + 1 := by
  unfold selectAnswer; dsimp only; split <;> simp

lemma selectAnswer_score (st : QuizState) (sel : String) (t : ℚ) :
    (selectAnswer st sel t).score = st.score +
      (if decodeHTML sel =
          decodeHTML ((st.currentQuestions.getD st.questionIndex default).correct_answer)
       then scoreForQuestion t else 0) := by
  unfold selectAnswer; dsimp only; split <;> simp

lemma selectAnswer_finished_of_lt (st : QuizState) (sel : String) (t : ℚ)
    (h : st.questionIndex + 1 < st.currentQuestions.length) :
    (selectAnswer st sel t).finished = st.finished := by
  unfold selectAnswer; dsimp only
  split <;> (rw [displayQuestion_finished_of_lt]; simpa using h)

lemma selectAnswer_finished_of_ge (st : QuizState) (sel : String) (t : ℚ)
    (h : ¬ st.questionIndex + 1 < st.currentQuestions.length) :
    (selectAnswer st sel t).finished = true := by
  unfold selectAnswer; dsimp only
  split <;> (rw [displayQuestion_finished_of_ge]; simpa using h)

lemma runSession_nil (st : QuizState) : runSession st [] = st := rfl

lemma runSession_cons (st : QuizState) (sel : String) (t : ℚ) (rest : List (String × ℚ)) :
    runSession st ((sel, t) :: rest) = runSession (selectAnswer st sel t) rest := rfl

/-- Invariants of a run of answer submissions, proved in one induction:
the question list is untouched, the index advances by exactly one per
submission, the Finished state is reached exactly when the submissions
exhaust the question list, and the score accumulates `answeredScore` over
the remaining questions. -/
lemma runSession_spec (subs : List (String × ℚ)) :
    ∀ st : QuizState, st.finished = false →
      st.questionIndex + subs.length ≤ st.currentQuestions.length →
      (runSession st subs).currentQuestions = st.currentQuestions ∧
      (runSession st subs).questionIndex = st.questionIndex + subs.length ∧
      (st.questionIndex + subs.length < st.currentQuestions.length →
        (runSession st subs).finished = st.finished) ∧
      (st.questionIndex + subs.length = st.currentQuestions.length → subs ≠ [] →
        (runSession st subs).finished = true) ∧
      (runSession st subs).score =
        st.score + answeredScore (st.currentQuestions.drop st.questionIndex) subs := by
  induction subs with
  | nil =>
    intro st hf hle
    exact ⟨rfl, by simp [runSession_nil], fun _ => by rw [runSession_nil],
      fun _ hne => absurd rfl hne, by simp [runSession_nil, answeredScore]⟩
  | cons p rest ih =>
    intro st hf hle
    obtain ⟨sel, t⟩ := p
    have hlt : st.questionIndex < st.currentQuestions.length := by
      simp only [List.length_cons] at hle; omega
    have hdrop : st.currentQuestions.drop st.questionIndex =
        st.currentQuestions[st.questionIndex] :: st.currentQuestions.drop (st.questionIndex + 1) :=
      List.drop_eq_getElem_cons hlt
    have hgetD : st.currentQuestions.getD st.questionIndex default =
        st.currentQuestions[st.questionIndex] := by
      simp [List.getElem?_eq_getElem hlt]
    have hscore' : answeredScore (st.currentQuestions.drop st.questionIndex) ((sel, t) :: rest) =
        (if decodeHTML sel = decodeHTML (st.currentQuestions[st.questionIndex].correct_answer)
         then scoreForQuestion t else 0) +
        answeredScore (st.currentQuestions.drop (st.questionIndex + 1)) rest := by
      simp only [answeredScore]
      rw [hdrop]
      simp only [List.zip_cons_cons, List.map_cons, List.sum_cons]
    set st2 := selectAnswer st sel t with hst2
    have h2q : st2.currentQuestions = st.currentQuestions := selectAnswer_currentQuestions ..
    have h2i : st2.questionIndex = st.questionIndex + 1 := selectAnswer_questionIndex ..
    have h2s : st2.score = st.score +
        (if decodeHTML sel = decodeHTML (st.currentQuestions[st.questionIndex].correct_answer)
         then scoreForQuestion t else 0) := by
      rw [hst2, selectAnswer_score, hgetD]
    rw [runSession_cons, ← hst2]
    by_cases hb : st.questionIndex + 1 < st.currentQuestions.length
    · have h2f : st2.finished = false := by
        rw [hst2, selectAnswer_finished_of_lt st sel t hb]; exact hf
      have hle2 : st2.questionIndex + rest.length ≤ st2.currentQuestions.length := by
        rw [h2i, h2q]; simp only [List.length_cons] at hle; omega
      obtain ⟨c1, c2, c3a, c3b, c4⟩ := ih st2 h2f hle2
      refine ⟨by rw [c1, h2q], ?_, ?_, ?_, ?_⟩
      · rw [c2, h2i]; simp only [List.length_cons]; omega
      · intro hlt2
        rw [c3a (by rw [h2i, h2q]; simp only [List.length_cons] at hlt2; omega), h2f, hf]
      · intro heq _
        have hne : rest ≠ [] := by
          intro he
          subst he
          simp only [List.length_cons, List.length_nil] at heq
          omega
        exact c3b (by rw [h2i, h2q]; simp only [List.length_cons] at heq; omega) hne
      · rw [c4, h2s, h2i, h2q, hscore']; ring
    · have hrest : rest = [] := by
        simp only [List.length_cons] at hle
        have : rest.length = 0 := by omega
        exact List.length_eq_zero.mp this
      subst hrest
      have h2f : st2.finished = true := by
        rw [hst2]; exact selectAnswer_finished_of_ge st sel t hb
      rw [runSession_nil]
      refine ⟨h2q, ?_, ?_, ?_, ?_⟩
      · rw [h2i]; simp only [List.length_cons, List.length_nil]
      · intro hlt2
        simp only [List.length_cons, List.length_nil] at hlt2
        omega
      · intro _ _; exact h2f
      · rw [h2s, hscore']
        simp [answeredScore]

/-! ### Lemmas about `startSession` -/

@[simp] lemma startSession_currentQuestions (st : QuizState) (qs : List Question) :
    (startSession st qs).currentQuestions = qs := by
  unfold startSession; simp

@[simp] lemma startSession_questionIndex (st : QuizState) (qs : List Question) :
    (startSession st qs).questionIndex = 0 := by
  unfold startSession; simp

@[simp] lemma startSession_score (st : QuizState) (qs : List Question) :
    (startSession st qs).score = 0 := by
  unfold startSession; simp

lemma startSession_finished_of_pos (st : QuizState) (qs : List Question)
    (h : 0 < qs.length) :
    (startSession st qs).finished = false := by
  unfold startSession
  rw [displayQuestion_finished_of_lt]
  simpa using h

lemma startSession_finished_of_nil (st : QuizState) :
    (startSession st []).finished = true := by
  unfold startSession
  rw [displayQuestion_finished_of_ge]
  simp

/-! ### The shuffle is a permutation -/

lemma getD_cons_set_perm (a d : α) :
    ∀ (t : List α) (m : Nat), m < t.length →
      List.Perm (t.getD m d :: t.set m a) (a :: t) := by
  intro t
  induction t with
  | nil => intro m hm; simp at hm
  | cons b s ih =>
    intro m hm
    cases m with
    | zero => simpa using List.Perm.swap a b s
    | succ m =>
      have hms : m < s.length := by simpa using hm
      simp only [List.getD_cons_succ, List.set_cons_succ]
      exact List.Perm.trans (List.Perm.swap b (s.getD m d) (s.set m a))
        (List.Perm.trans (List.Perm.cons b (ih m hms)) (List.Perm.swap a b s))

lemma set_set_perm (d : α) :
    ∀ (l : List α) (i j : Nat), i < l.length → j < l.length →
      List.Perm ((l.set i (l.getD j d)).set j (l.getD i d)) l := by
  intro l
  induction l with
  | nil => intro i j hi _; simp at hi
  | cons b s ih =>
    intro i j hi hj
    cases i with
    | zero =>
      cases j with
      | zero => simp
      | succ m =>
        have hms : m < s.length := by simpa using hj
        simpa using getD_cons_set_perm b d s m hms
    | succ n =>
      have hns : n < s.length := by simpa using hi
      cases j with
      | zero => simpa using getD_cons_set_perm b d s n hns
      | succ m =>
        have hms : m < s.length := by simpa using hj
        simpa using List.Perm.cons b (ih n m hns hms)

lemma swapIdx_perm (l : List α) (i j : Nat) : List.Perm (swapIdx l i j) l := by
  unfold swapIdx
  cases h1 : l.get? i with
  | none => exact List.Perm.refl l
  | some x =>
    cases h2 : l.get? j with
    | none => exact List.Perm.refl l
    | some y =>
      obtain ⟨hi, hix⟩ := List.get?_eq_some.mp h1
      obtain ⟨hj, hjy⟩ := List.get?_eq_some.mp h2
      have hx : l.getD i x = x := by
        rw [List.getD_eq_getElem?_getD, List.getElem?_eq_getElem hi]
        simpa [List.get_eq_getElem] using hix
      have hy : l.getD j x = y := by
        rw [List.getD_eq_getElem?_getD, List.getElem?_eq_getElem hj]
        simpa [List.get_eq_getElem] using hjy
      have := set_set_perm x l i j hi hj
      rw [hx, hy] at this
      exact this

lemma shuffleAux_perm (rand : Nat → Nat) :
    ∀ (i : Nat) (l : List α), List.Perm (shuffleAux rand l i) l := by
  intro i
  induction i with
  | zero => intro l; exact List.Perm.refl l
  | succ i ih =>
    intro l
    exact List.Perm.trans (ih (swapIdx l (i + 1) (rand (i + 1) % (i + 2))))
      (swapIdx_perm l (i + 1) (rand (i + 1) % (i + 2)))

lemma shuffleArray_perm (l : List α) (rand : Nat → Nat) :
    List.Perm (shuffleArray l rand) l :=
  shuffleAux_perm rand (l.length - 1) l

/-! ### Lemmas about decoding -/

lemma decodeAux_plain :
    ∀ (l : List Char), (∀ c ∈ l, ¬ c = '&') → ∀ fuel, decodeAux fuel l = l := by
  intro l
  induction l with
  | nil => intro _ fuel; cases fuel <;> rfl
  | cons c rest ih =>
    intro hp fuel
    cases fuel with
    | zero => rfl
    | succ fuel =>
      have hc : ¬ c = '&' := hp c (List.mem_cons_self c rest)
      have hrest : ∀ d ∈ rest, ¬ d = '&' := fun d hd => hp d (List.mem_cons_of_mem c hd)
      simp only [decodeAux, if_neg hc, ih hrest fuel]

/-- A plain string decodes to itself. -/
lemma decodeHTML_plain (s : String) (hs : isPlain s = true) : decodeHTML s = s := by
  have hp : ∀ c ∈ s.toList, ¬ c = '&' := by
    intro c hc
    have := List.all_eq_true.mp hs c hc
    simpa using this
  unfold decodeHTML
  rw [decodeAux_plain s.toList hp s.length]
  rcases s with ⟨data⟩
  rfl

/-! ### Example fixtures -/

/-- The end-to-end example question of spec section 8. -/
def exampleQuestion : Question := ⟨"2+2=?", "4", ["3", "5", "22"]⟩

/-- A fresh controller state: nothing loaded, zero scores. -/
def initialState : QuizState := ⟨[], 0, 0, 0, false⟩

/-! ### The claims -/

/-- C1: for every answer submission with elapsed time `t ≥ 0` seconds, the awarded
points equal `max(1000 - 10 * floor(t), 0)`; the award at `t = 0` is 1000, at
`t = 100` and `t = 150` it is 0, and the award is never negative. -/
theorem score_award_formula (t : ℚ) (_ht : 0 ≤ t) :
    scoreForQuestion t = max (1000 - 10 * ⌊t⌋) 0 ∧
    0 ≤ scoreForQuestion t ∧
    scoreForQuestion 0 = 1000 ∧ scoreForQuestion 100 = 0 ∧ scoreForQuestion 150 = 0 := by
  refine ⟨?_, le_max_right _ _, by decide, by decide, by decide⟩
  simp [scoreForQuestion, baseScorePerQuestion, penaltyPerSecond, mul_comm]

theorem score_award_formula_witness :
    (0:ℚ) ≤ 3 ∧
    (scoreForQuestion 3 = max (1000 - 10 * ⌊(3:ℚ)⌋) 0 ∧
     0 ≤ scoreForQuestion 3 ∧
     scoreForQuestion 0 = 1000 ∧ scoreForQuestion 100 = 0 ∧ scoreForQuestion 150 = 0) :=
  ⟨by norm_num, score_award_formula 3 (by norm_num)⟩

/-- C2: after a finished session the stored high score equals
`max(previousStoredHighScore, finalScore)`; it changes only when the final
score is strictly greater (a tie leaves everything unchanged), and it never
decreases. -/
theorem highScore_update_max (st : QuizState) :
    (updateHighScore st).highScore = max st.highScore st.score ∧
    (st.score ≤ st.highScore → updateHighScore st = st) ∧
    st.highScore ≤ (updateHighScore st).highScore := by
  unfold updateHighScore
  rcases le_or_lt st.score st.highScore with h | h
  · rw [if_neg (not_lt.mpr h)]
    exact ⟨(max_eq_left h).symm, fun _ => rfl, le_refl _⟩
  · rw [if_pos h]
    exact ⟨(max_eq_right (le_of_lt h)).symm, fun h2 => absurd h (not_lt.mpr h2), le_of_lt h⟩

theorem highScore_update_max_witness :
    (500:ℤ) ≤ 500 ∧
    updateHighScore ⟨[], 500, 0, 500, false⟩ = ⟨[], 500, 0, 500, false⟩ :=
  ⟨by norm_num, (highScore_update_max ⟨[], 500, 0, 500, false⟩).2.1 (by norm_num)⟩

/-- C3: over a list of K questions, after K answer submissions the controller
reaches Finished exactly once with `questionIndex = K`: after `i` submissions
the index is exactly `i` (it advances by one per submission, so no question is
skipped or repeated), the state is Finished iff `i = K`, and while unfinished
the single active question is the `i`-th one. -/
theorem session_finishes_exactly_once (st0 : QuizState) (qs : List Question)
    (subs : List (String × ℚ)) (hlen : subs.length = qs.length)
    (i : Nat) (hi : i ≤ subs.length) :
    (runSession (startSession st0 qs) (subs.take i)).questionIndex = i ∧
    ((runSession (startSession st0 qs) (subs.take i)).finished = true ↔ i = subs.length) ∧
    (i < subs.length →
      displayedQuestion (runSession (startSession st0 qs) (subs.take i)) = qs.get? i) := by
  set st := startSession st0 qs with hst
  have hq : st.currentQuestions = qs := startSession_currentQuestions ..
  have hidx : st.questionIndex = 0 := startSession_questionIndex ..
  have hlen' : (subs.take i).length = i := by rw [List.length_take]; omega
  cases Nat.eq_zero_or_pos qs.length with
  | inl h0 =>
    have hsubs : subs = [] := List.length_eq_zero.mp (by omega)
    have hi0 : i = 0 := by
      subst hsubs; simpa using hi
    subst hsubs
    subst hi0
    have hqnil : qs = [] := List.length_eq_zero.mp h0
    have hfin : st.finished = true := by
      rw [hst, hqnil]; exact startSession_finished_of_nil st0
    refine ⟨?_, ?_, by intro h; simp at h⟩
    · simpa [runSession_nil] using hidx
    · simp [runSession_nil, hfin]
  | inr hpos =>
    have hfin : st.finished = false := by
      rw [hst]; exact startSession_finished_of_pos st0 qs hpos
    have hle : st.questionIndex + (subs.take i).length ≤ st.currentQuestions.length := by
      rw [hidx, hq, hlen']; omega
    obtain ⟨c1, c2, c3a, c3b, c4⟩ := runSession_spec (subs.take i) st hfin hle
    refine ⟨by rw [c2, hidx, hlen']; omega, ⟨?_, ?_⟩, ?_⟩
    · intro hfin2
      by_contra hne
      have hlt : i < subs.length := lt_of_le_of_ne hi hne
      have := c3a (by rw [hidx, hq, hlen']; omega)
      rw [this, hfin] at hfin2
      exact absurd hfin2 (by simp)
    · intro hieq
      apply c3b
      · rw [hidx, hq, hlen']; omega
      · intro hemp
        rw [hemp] at hlen'
        simp at hlen'
        omega
    · intro _
      unfold displayedQuestion
      rw [c1, c2, hq, hidx, hlen']
      simp

theorem session_finishes_exactly_once_witness :
    ([("4", (0:ℚ))].length = [exampleQuestion].length ∧ 1 ≤ [("4", (0:ℚ))].length) ∧
    ((runSession (startSession initialState [exampleQuestion])
        ([("4", (0:ℚ))].take 1)).questionIndex = 1 ∧
     ((runSession (startSession initialState [exampleQuestion])
        ([("4", (0:ℚ))].take 1)).finished = true ↔ 1 = [("4", (0:ℚ))].length) ∧
     (1 < [("4", (0:ℚ))].length →
       displayedQuestion (runSession (startSession initialState [exampleQuestion])
         ([("4", (0:ℚ))].take 1)) = [exampleQuestion].get? 1)) :=
  ⟨⟨rfl, by norm_num⟩,
   session_finishes_exactly_once initialState [exampleQuestion] [("4", 0)] rfl 1 (by norm_num)⟩

/-- C4: for every question render, the multiset of displayed choices equals the
decoded union of the incorrect answers and the correct answer, for every
sequence of random draws of the shuffle; and when the decoded correct answer
differs from every decoded incorrect answer, exactly one displayed choice is
the correct one. -/
theorem displayed_choices_multiset (q : Question) (rand : Nat → Nat) :
    (↑(displayAnswers q rand) : Multiset String) =
      ↑((q.incorrect_answers ++ [q.correct_answer]).map decodeHTML) ∧
    (decodeHTML q.correct_answer ∉ q.incorrect_answers.map decodeHTML →
      (displayAnswers q rand).count (decodeHTML q.correct_answer) = 1) := by
  have hperm : List.Perm (displayAnswers q rand)
      ((q.incorrect_answers ++ [q.correct_answer]).map decodeHTML) :=
    List.Perm.map decodeHTML (shuffleArray_perm (q.incorrect_answers ++ [q.correct_answer]) rand)
  constructor
  · exact Multiset.coe_eq_coe.mpr hperm
  · intro hnot
    rw [hperm.count_eq, List.map_append, List.count_append]
    have h0 : (q.incorrect_answers.map decodeHTML).count (decodeHTML q.correct_answer) = 0 :=
      List.count_eq_zero.mpr hnot
    simp [h0]

theorem displayed_choices_multiset_witness :
    (decodeHTML exampleQuestion.correct_answer ∉
      exampleQuestion.incorrect_answers.map decodeHTML) ∧
    (displayAnswers exampleQuestion (fun i => i * 7 + 3)).count
      (decodeHTML exampleQuestion.correct_answer) = 1 :=
  ⟨by decide, (displayed_choices_multiset exampleQuestion (fun i => i * 7 + 3)).2 (by decide)⟩

/-- C5: the final score of a session equals the sum, over the questions in
order, of the awarded points of exactly those submissions whose decoded
selection equals the decoded correct answer; incorrect submissions
contribute 0 (this is `answeredScore`). -/
theorem final_score_sums_correct_answers (st0 : QuizState) (qs : List Question)
    (subs : List (String × ℚ)) (hlen : subs.length = qs.length) :
    (runSession (startSession st0 qs) subs).score = answeredScore qs subs := by
  cases Nat.eq_zero_or_pos qs.length with
  | inl h0 =>
    have hqnil : qs = [] := List.length_eq_zero.mp h0
    have hsnil : subs = [] := List.length_eq_zero.mp (by omega)
    subst hqnil; subst hsnil
    simp [runSession_nil, answeredScore]
  | inr hpos =>
    set st := startSession st0 qs with hst
    have hq : st.currentQuestions = qs := startSession_currentQuestions ..
    have hidx : st.questionIndex = 0 := startSession_questionIndex ..
    have hfin : st.finished = false := by
      rw [hst]; exact startSession_finished_of_pos st0 qs hpos
    have hle : st.questionIndex + subs.length ≤ st.currentQuestions.length := by
      rw [hidx, hq]; omega
    obtain ⟨-, -, -, -, c4⟩ := runSession_spec subs st hfin hle
    rw [c4, hq, hidx]
    simp [hst]

theorem final_score_sums_correct_answers_witness :
    ([("4", (0:ℚ))].length = [exampleQuestion].length) ∧
    (runSession (startSession initialState [exampleQuestion]) [("4", (0:ℚ))]).score =
      answeredScore [exampleQuestion] [("4", (0:ℚ))] :=
  ⟨rfl, final_score_sums_correct_answers initialState [exampleQuestion] [("4", 0)] rfl⟩

/-- C6: decoding is idempotent on already-plain text, the encoded apostrophe
`&#039;` decodes to the apostrophe character, and the correctness comparison
decodes both sides, so two strings with the same decoded form are never
considered different. -/
theorem decode_comparison_contract (x a b : String) (hx : isPlain x = true)
    (hab : decodeHTML a = decodeHTML b) :
    decodeHTML (decodeHTML x) = decodeHTML x ∧
    isCorrectSelection a b = true ∧
    decodeHTML "&#039;" = String.singleton (Char.ofNat 39) := by
  refine ⟨?_, ?_, by decide⟩
  · rw [decodeHTML_plain x hx]
    exact decodeHTML_plain x hx
  · unfold isCorrectSelection
    rw [hab]
    simp

theorem decode_comparison_contract_witness :
    (isPlain "Correct!" = true ∧
     decodeHTML "&#039;" = decodeHTML (String.singleton (Char.ofNat 39))) ∧
    (decodeHTML (decodeHTML "Correct!") = decodeHTML "Correct!" ∧
     isCorrectSelection "&#039;" (String.singleton (Char.ofNat 39)) = true ∧
     decodeHTML "&#039;" = String.singleton (Char.ofNat 39)) :=
  ⟨⟨by decide, by decide⟩,
   decode_comparison_contract "Correct!" "&#039;" (String.singleton (Char.ofNat 39))
     (by decide) (by decide)⟩

/-- C7 counterexample: category loads append to the selector instead of
replacing it.  Loading the single category (9, General Knowledge) at startup
and again after a restart leaves two identical entries, not the single entry
per fetched category that the claim demands. -/
theorem categories_reload_duplicates :
    fetchCategories (fetchCategories [] [⟨9, "General Knowledge"⟩]) [⟨9, "General Knowledge"⟩] =
      [⟨9, "General Knowledge"⟩, ⟨9, "General Knowledge"⟩] ∧
    ¬ fetchCategories (fetchCategories [] [⟨9, "General Knowledge"⟩]) [⟨9, "General Knowledge"⟩] =
      List.map (fun c : Category => ({ value := c.id, label := c.name } : SelectOption)) [⟨9, "General Knowledge"⟩] := by
  decide

/-- C7 (amended): every successful category load appends one entry per fetched
Category (value = id, label = name) in API-returned order after the existing
selector contents; only a load into an empty selector (the startup load)
yields exactly one entry per fetched Category, and reloads after restarts
leave the stale entries in place. -/
theorem fetchCategories_appends (selector : List SelectOption) (cats : List Category) :
    fetchCategories selector cats =
      selector ++ cats.map (fun c => { value := c.id, label := c.name }) ∧
    fetchCategories [] cats = cats.map (fun c => { value := c.id, label := c.name }) :=
  ⟨rfl, by simp [fetchCategories]⟩

/-- C8: a successful `fetchQuestions` installs the returned list as the active
questions and resets index and score to 0 with no alert; a failed one raises
an alert carrying the error and leaves the whole session state unchanged. -/
theorem fetchQuestions_success_failure (st : QuizState) (data : List Question) (e : String) :
    (fetchQuestions st (Except.ok data)).1.currentQuestions = data ∧
    (fetchQuestions st (Except.ok data)).1.questionIndex = 0 ∧
    (fetchQuestions st (Except.ok data)).1.score = 0 ∧
    (fetchQuestions st (Except.ok data)).2 = none ∧
    (fetchQuestions st (Except.error e)).1 = st ∧
    (fetchQuestions st (Except.error e)).2 = some ("Error:" ++ e) := by
  unfold fetchQuestions
  exact ⟨by simp, by simp, by simp, rfl, rfl, rfl⟩

/-- C9: displaying a successfully fetched empty question list immediately
finishes the session with score 0: the high-score check runs on a zero score,
the results view is shown, and no question is ever rendered. -/
theorem empty_list_finishes_immediately (st : QuizState) :
    (fetchQuestions st (Except.ok [])).1.finished = true ∧
    (fetchQuestions st (Except.ok [])).1.score = 0 ∧
    (fetchQuestions st (Except.ok [])).1.highScore =
      (if (0:ℤ) > st.highScore then 0 else st.highScore) ∧
    displayedQuestion (fetchQuestions st (Except.ok [])).1 = none := by
  unfold fetchQuestions
  dsimp only
  refine ⟨?_, by simp, ?_, ?_⟩
  · rw [displayQuestion_finished_of_ge]
    simp
  · rw [displayQuestion_highScore_of_ge _ (by simp)]
    simp only [updateHighScore]
    split <;> rfl
  · unfold displayedQuestion
    rw [displayQuestion_currentQuestions, displayQuestion_questionIndex]
    simp

/-- C10: the correct-answer button lookup of `selectAnswer` misses whenever the
decoded correct answer is re-serialized differently by the DOM: with answers
(Paris, `&amp;`) and correct answer `&amp;`, the rendered button reads back
`&amp;` while the lookup compares against the decoded `&`, so `correctButton`
is `none` (undefined) even though the correct answer is among the rendered
choices, and the subsequent `classList` access throws; for an answer without
`&`, `<`, `>` the lookup succeeds. -/
theorem correctButton_lookup_fails_on_ampersand :
    findCorrectButton ["Paris", "&amp;"] "&amp;" = none ∧
    "&amp;" ∈ ["Paris", "&amp;"] ∧
    decodeHTML "&amp;" = "&" ∧
    findCorrectButton ["Paris", "London"] "London" = some "London" := by
  decide

end CategorizedQuiz
